import Mathlib

/-!
Verification of `langchain_google_vertexai/functions_utils.py`: a schema
adapter between a JSON-Schema-like dictionary model and the Vertex AI
function-calling API.  JSON-like values are embedded as `JVal`; Python
dictionaries become association lists preserving insertion order; Python
exceptions become an explicit `Except` error channel.
-/

set_option autoImplicit false

/-- A JSON-like Python value: `None`, booleans, numbers, strings, lists and
dictionaries (association lists in insertion order, keys unique in actual
Python dictionaries). -/
inductive JVal where
  | null
  | bool (b : Bool)
  | num (n : Int)
  | str (s : String)
  | list (xs : List JVal)
  | obj (fields : List (String × JVal))


/-- First-match key lookup in an association list, as Python `d[k]` / `k in d`. -/
def lookupK (k : String) : List (String × JVal) → Option JVal
  | [] => none
  | (k', v) :: rest => if k' = k then some v else lookupK k rest

/-- Python `d[k] = v`: replace the value at the (first) existing occurrence of
`k`, keeping its position, else append `(k, v)` at the end. -/
def setK (k : String) (v : JVal) : List (String × JVal) → List (String × JVal)
  | [] => [(k, v)]
  | (k', v') :: rest => if k' = k then (k', v) :: rest else (k', v') :: setK k v rest

/-- A chat message: visible content plus the `additional_kwargs` side channel. -/
structure Message where
  content : String
  additional_kwargs : List (String × JVal)


/-- The Python exceptions the module can raise.  `allOfValueError` models
`ValueError(f"allOf expected to be a singleton list. Received {v['allOf']}")`,
carrying the received `allOf` value instead of formatting it into text;
`outputParserException` models `OutputParserException(f"Could not parse
function call: {message}")`, carrying the full message. -/
inductive PyErr where
  | valueError (msg : String)
  | allOfValueError (received : JVal)
  | attributeError
  | typeError
  | keyError (k : String)
  | indexError
  | jsonDecodeError
  | validationError
  | outputParserException (message : Message)


/-- Python `" ".join((a, b))` on the two description slots: both operands must
be strings (`d.get(key, "")` may return a non-string), else `TypeError`. -/
def joinDescriptions (a b : JVal) : Except PyErr JVal :=
  match a, b with
  | .str s1, .str s2 => .ok (.str (s1 ++ " " ++ s2))
  | _, _ => .error .typeError

/-- The merged `title` of a singleton-`allOf` replacement:
`v.get("title", obj.get("title", ""))`. -/
def mergedTitle (dv di : List (String × JVal)) : JVal :=
  (lookupK "title" dv).getD ((lookupK "title" di).getD (.str ""))

/-- The singleton-`allOf` branch of `_replace_all_ofs`: `obj = dict(v["allOf"][0])`,
then `obj["title"] = v.get("title", obj.get("title", ""))`, then
`obj["description"] = " ".join((v.get("description", ""), obj.get("description", "")))`.
A non-singleton (or non-list) `allOf` raises `ValueError`; a singleton whose
element is not a dictionary raises `TypeError` (from `dict(...)`). -/
def mergeAllOf (dv : List (String × JVal)) (a : JVal) : Except PyErr JVal :=
  match a with
  | .list l =>
    match l with
    | [inner] =>
      match inner with
      | .obj di => do
        let t := mergedTitle dv di
        let d ← joinDescriptions ((lookupK "description" dv).getD (.str ""))
                                 ((lookupK "description" di).getD (.str ""))
        .ok (.obj (setK "description" d (setK "title" t di)))
      | _ => .error .typeError
    | _ => .error (.allOfValueError (.list l))
  | _ => .error (.allOfValueError a)

/-- Bind of an `Except` success, for rewriting `do` blocks. -/
@[simp] theorem exceptBindOk {e a b : Type} (x : a) (f : a → Except e b) :
    (Except.ok x >>= f) = f x := rfl

/-- Bind of an `Except` error, for rewriting `do` blocks. -/
@[simp] theorem exceptBindError {e a b : Type} (err : e) (f : a → Except e b) :
    ((Except.error err : Except e a) >>= f) = Except.error err := rfl

mutual

/-- Embedding of `_replace_all_ofs(schema)`: rebuild the dictionary entry by entry. -/
def replace_all_ofs : List (String × JVal) → Except PyErr (List (String × JVal))
  | [] => .ok []
  | (k, v) :: rest => do
    let v' ← replaceVal v
    let rest' ← replace_all_ofs rest
    .ok ((k, v') :: rest')

/-- The per-value dispatch of `_replace_all_ofs`: a dictionary containing
`"allOf"` is merged, a dictionary without it is recursed into, a list whose
first element is a dictionary is recursed elementwise, everything else is
copied unchanged. -/
def replaceVal : JVal → Except PyErr JVal
  | .obj dv =>
    match lookupK "allOf" dv with
    | some a => mergeAllOf dv a
    | none => .obj <$> replace_all_ofs dv
  | .list (h :: t) =>
    match h with
    | .obj _ => .list <$> replaceList (h :: t)
    | _ => .ok (.list (h :: t))
  | v => .ok v

/-- Elementwise recursion `[_replace_all_ofs(s) for s in v]`: a non-dictionary
element makes `_replace_all_ofs` call `.items()` on it, an `AttributeError`. -/
def replaceList : List JVal → Except PyErr (List JVal)
  | [] => .ok []
  | x :: xs =>
    match x with
    | .obj d => do
      let d' ← replace_all_ofs d
      let rest ← replaceList xs
      .ok (.obj d' :: rest)
    | _ => .error .attributeError

end



mutual

/-- No key named `"allOf"` in this dictionary, and none anywhere below. -/
def noAllOfD : List (String × JVal) → Bool
  | [] => true
  | (k, v) :: rest => (k != "allOf") && noAllOfV v && noAllOfD rest

/-- No key named `"allOf"` anywhere inside this value. -/
def noAllOfV : JVal → Bool
  | .obj d => noAllOfD d
  | .list xs => noAllOfL xs
  | _ => true

/-- No key named `"allOf"` anywhere inside any element. -/
def noAllOfL : List JVal → Bool
  | [] => true
  | x :: xs => noAllOfV x && noAllOfL xs

end

/-- The description slot read by the merge: absent (default `""`) or a string. -/
def strOkOpt : Option JVal → Bool
  | none => true
  | some (.str _) => true
  | some _ => false

mutual

/-- Precondition on a dictionary under which the flattener succeeds and its
output is `allOf`-free: no entry is itself keyed `"allOf"`, and every value
satisfies `flatPreV`. -/
def flatPreD : List (String × JVal) → Bool
  | [] => true
  | (k, v) :: rest => (k != "allOf") && flatPreV v && flatPreD rest

/-- Precondition on a value met by the flattener's traversal: a dictionary
holding `"allOf"` must hold a singleton list of one dictionary that is
`allOf`-free (as is the merged title), with string (or absent) descriptions;
a dictionary without `"allOf"` recurses; a list headed by a dictionary must
consist of dictionaries satisfying the precondition; anything else is copied,
so it must be `allOf`-free already. -/
def flatPreV : JVal → Bool
  | .obj dv =>
    match lookupK "allOf" dv with
    | some a =>
      match a with
      | .list [.obj di] =>
        strOkOpt (lookupK "description" dv) && strOkOpt (lookupK "description" di) &&
          noAllOfD di && noAllOfV (mergedTitle dv di)
      | _ => false
    | none => flatPreD dv
  | .list (h :: t) =>
    match h with
    | .obj _ => flatPreL (h :: t)
    | _ => noAllOfL (h :: t)
  | v => noAllOfV v

/-- Every element is a dictionary satisfying the precondition. -/
def flatPreL : List JVal → Bool
  | [] => true
  | x :: xs =>
    (match x with
     | .obj d => flatPreD d
     | _ => false) && flatPreL xs

end

mutual

/-- The spec's Schema data model, dictionary level: values are scalars, nested
schemas, or sequences of schemas (a sequence headed by a mapping consists of
mappings only). -/
def shapedD : List (String × JVal) → Bool
  | [] => true
  | (_, v) :: rest => shapedV v && shapedD rest

/-- The spec's Schema data model, value level. -/
def shapedV : JVal → Bool
  | .obj d => shapedD d
  | .list (h :: t) =>
    match h with
    | .obj d => shapedD d && shapedL t
    | _ => true
  | _ => true

/-- All elements of a mapping-headed sequence are shaped mappings. -/
def shapedL : List JVal → Bool
  | [] => true
  | x :: xs =>
    (match x with
     | .obj d => shapedD d
     | _ => false) && shapedL xs

end

/-- Key-size bound used for the filter's termination. -/
theorem sizeOf_lookupK {k : String} :
    ∀ {d : List (String × JVal)} {v : JVal}, lookupK k d = some v → sizeOf v < sizeOf d := by
  intro d
  induction d with
  | nil => intro v h; simp [lookupK] at h
  | cons p rest ih =>
    intro v h
    obtain ⟨k', v'⟩ := p
    simp only [lookupK] at h
    by_cases hk : k' = k
    · simp [hk] at h
      subst h
      simp
      omega
    · simp [hk] at h
      have := ih h
      simp
      omega

/-- The pass-through predicate for fields not declared on `ParametersSchema`:
everything except `title`, `definitions`, `items`, `properties` is an extra
field. -/
def extrasPred (q : String × JVal) : Bool :=
  q.1 != "title" && q.1 != "definitions" && q.1 != "items" && q.1 != "properties"

mutual

/-- Embedding of `ParametersSchema.parse_obj(schema).dict(exclude_unset=True)`: the pydantic
model with `title`/`definitions` declared but excluded, `items` an optional
nested model, `properties` an optional mapping of nested models, and extra
fields allowed and passed through verbatim.  Output order follows pydantic:
declared set fields in declaration order, then extras in input order.
Validation failures (non-string-coercible `title`, non-dictionary `items` or
`properties` values) raise a `ValidationError`. -/
def filterParams (d : List (String × JVal)) : Except PyErr (List (String × JVal)) := do
  match lookupK "title" d with
  | some (.obj _) => .error .validationError
  | some (.list _) => .error .validationError
  | _ => pure ()
  let itemsOut ← (match h : lookupK "items" d with
    | none => .ok []
    | some .null => .ok [("items", JVal.null)]
    | some (.obj di) => (fun o => [("items", JVal.obj o)]) <$> filterParams di
    | some _ => .error .validationError)
  let propsOut ← (match h : lookupK "properties" d with
    | none => .ok []
    | some .null => .ok [("properties", JVal.null)]
    | some (.obj dp) => (fun o => [("properties", JVal.obj o)]) <$> filterProps dp
    | some _ => .error .validationError)
  let extras := d.filter extrasPred
  .ok (itemsOut ++ propsOut ++ extras)
termination_by sizeOf d
decreasing_by
  all_goals first
    | (have hs := sizeOf_lookupK h; simp at hs ⊢; omega)
    | (simp; omega)

/-- Embedding of the `Dict[str, ParametersSchema]` validation: every value must be a dictionary,
parsed as a nested `ParametersSchema`; order is preserved. -/
def filterProps : List (String × JVal) → Except PyErr (List (String × JVal))
  | [] => .ok []
  | (n, v) :: rest =>
    match v with
    | .obj dv => do
      let o ← filterParams dv
      let rest' ← filterProps rest
      .ok ((n, JVal.obj o) :: rest')
    | _ => .error .validationError
termination_by dp => sizeOf dp

end

/-- Modelled from the spec: the external schema dereferencer
(`langchain_core.utils.json_schema.dereference_refs`) is out of scope; on an
already-dereferenced schema (the module's documented precondition, no `$ref`
keys) it returns the schema unchanged. -/
def dereference_refs (schema : List (String × JVal)) : List (String × JVal) :=
  schema

/-- Embedding of `_get_parameters_from_schema`: dereference, flatten `allOf`, filter through
`ParametersSchema` with `exclude_unset=True`. -/
def get_parameters_from_schema (schema : List (String × JVal)) :
    Except PyErr (List (String × JVal)) := do
  let s1 := dereference_refs schema
  let s2 ← replace_all_ofs s1
  filterParams s2

/-- The `FunctionDescription` triple `{name, description, parameters}`.  The
`name`/`description` slots hold whatever Python value the builder put there. -/
structure FunctionDescription where
  name : JVal
  description : JVal
  parameters : List (String × JVal)

/-- A structured data-model (pydantic) class: its introspected JSON schema
(`cls.schema()`) and its constructor from a keyword mapping (`cls(**kwargs)`),
returning `none` on a validation error. -/
structure PModel where
  schema : List (String × JVal)
  validate : List (String × JVal) → Option (List (String × JVal))

/-- Embedding of `_format_pydantic_to_vertex_function`: `name = schema["title"]` (a missing
title is a `KeyError`), `description = schema.get("description", "")`,
`parameters = _get_parameters_from_schema(schema)`. -/
def format_pydantic_to_vertex_function (pm : PModel) : Except PyErr FunctionDescription := do
  let name ← match lookupK "title" pm.schema with
    | some t => Except.ok t
    | none => Except.error (.keyError "title")
  let desc := (lookupK "description" pm.schema).getD (.str "")
  let params ← get_parameters_from_schema pm.schema
  .ok ⟨name, desc, params⟩

/-- A callable tool: name, description (both strings, `""` when unset) and an
optional argument schema class, abstracted to its introspected schema. -/
structure BaseTool where
  name : String
  description : String
  args_schema : Option (List (String × JVal))

/-- The fixed single-string-argument fallback parameters. -/
def fallbackParams : List (String × JVal) :=
  [("properties", .obj [("__arg1", .obj [("type", .str "string")])]),
   ("required", .list [.str "__arg1"]),
   ("type", .str "object")]

/-- Embedding of `_format_tool_to_vertex_function`: with an argument schema,
`name = tool.name or schema["title"]` and
`description = tool.description or schema["description"]` (Python `or`:
the string is taken when non-empty, else the schema key is indexed, a
`KeyError` when absent); without one, the fallback parameters. -/
def format_tool_to_vertex_function (tool : BaseTool) : Except PyErr FunctionDescription :=
  match tool.args_schema with
  | some s => do
    let name ← if tool.name ≠ "" then Except.ok (JVal.str tool.name)
      else match lookupK "title" s with
        | some t => Except.ok t
        | none => Except.error (.keyError "title")
    let desc ← if tool.description ≠ "" then Except.ok (JVal.str tool.description)
      else match lookupK "description" s with
        | some t => Except.ok t
        | none => Except.error (.keyError "description")
    let params ← get_parameters_from_schema s
    .ok ⟨name, desc, params⟩
  | none => .ok ⟨.str tool.name, .str tool.description, fallbackParams⟩

/-- Python truthiness of a JSON-like value. -/
def truthy : JVal → Bool
  | .null => false
  | .bool b => b
  | .num n => n != 0
  | .str s => s != ""
  | .list xs => !xs.isEmpty
  | .obj d => !d.isEmpty

/-- A generation result: chat-style (carrying a message) or plain text. -/
inductive Generation where
  | chat (message : Message)
  | text (t : String)

/-- The parser's schema selector: one fixed structured type, or a mapping from
function name to structured type. -/
inductive PydanticSchema where
  | single (pm : PModel)
  | mapping (m : List (String × PModel))

/-- First-match lookup in the name-to-type mapping. -/
def lookupPM (k : String) : List (String × PModel) → Option PModel
  | [] => none
  | (k', v) :: rest => if k' = k then some v else lookupPM k rest

/-- Embedding of `PydanticFunctionsOutputParser.parse_result` (the unused keyword-only
`partial` flag is omitted).  `json_loads` abstracts the external JSON decoder
(`json.loads`), `none` meaning a decode failure.  The steps, in Python order:
index `result[0]` (an `IndexError` on an empty list); reject non-chat
generations with a `ValueError`; read
`function_call = message.additional_kwargs.get("function_call", {})`; when it
is falsy, raise `OutputParserException` embedding the message; else take
`function_call["name"]` (`KeyError` when absent; a truthy non-dictionary
`function_call` is a `TypeError` on indexing), then
`tool_input = function_call.get("arguments", {})`, resolve the structured type
(by name in the mapping case, a `KeyError` on a miss), and return
`schema(**json.loads(tool_input))` — a `TypeError` unless `tool_input` is a
string decoding to a dictionary, a validation error propagating from the
constructor. -/
def parse_result (json_loads : String → Option JVal) (sel : PydanticSchema)
    (result : List Generation) : Except PyErr (List (String × JVal)) :=
  match result with
  | [] => .error .indexError
  | g :: _ =>
    match g with
    | .text _ => .error (.valueError "This output parser only works on ChatGeneration output")
    | .chat message =>
      let fc := (lookupK "function_call" message.additional_kwargs).getD (.obj [])
      if truthy fc then
        match fc with
        | .obj fcd => do
          let nameV ← match lookupK "name" fcd with
            | some v => Except.ok v
            | none => Except.error (.keyError "name")
          let toolInput := (lookupK "arguments" fcd).getD (.obj [])
          let schema ← match sel with
            | .mapping m =>
              (match nameV with
               | .str n =>
                 (match lookupPM n m with
                  | some pm => Except.ok pm
                  | none => Except.error (.keyError n))
               | _ => Except.error (.keyError "name-not-a-string"))
            | .single pm => Except.ok pm
          let args ← match toolInput with
            | .str s =>
              (match json_loads s with
               | some v => Except.ok v
               | none => Except.error .jsonDecodeError)
            | _ => Except.error .typeError
          match args with
          | .obj flds =>
            (match schema.validate flds with
             | some inst => Except.ok inst
             | none => Except.error .validationError)
          | _ => Except.error .typeError
        | _ => Except.error .typeError
      else
        .error (.outputParserException message)

theorem lookupK_setK_self (k : String) (v : JVal) :
    ∀ d : List (String × JVal), lookupK k (setK k v d) = some v := by
  intro d
  induction d with
  | nil => simp [setK, lookupK]
  | cons p rest ih =>
    obtain ⟨k', v'⟩ := p
    by_cases hk : k' = k
    · simp [setK, hk, lookupK]
    · simp [setK, hk, lookupK, ih]

theorem lookupK_setK_ne (k k2 : String) (v : JVal) (hne : k2 ≠ k) :
    ∀ d : List (String × JVal), lookupK k2 (setK k v d) = lookupK k2 d := by
  intro d
  induction d with
  | nil => simp [setK, lookupK, Ne.symm hne]
  | cons p rest ih =>
    obtain ⟨k', v'⟩ := p
    by_cases hk : k' = k
    · subst hk
      simp [setK, lookupK, Ne.symm hne]
    · simp [setK, hk, lookupK, ih]

theorem lookupK_setK_isSome (k k2 : String) (v : JVal) :
    ∀ d : List (String × JVal),
      (lookupK k2 (setK k v d)).isSome → k2 = k ∨ (lookupK k2 d).isSome := by
  intro d
  by_cases hk : k2 = k
  · exact fun _ => Or.inl hk
  · rw [lookupK_setK_ne k k2 v hk d]
    exact fun h => Or.inr h

/-- C4: when the flattener meets a mapping value whose `allOf` holds exactly
one schema, it replaces the value by that schema's contents, with `title` =
the outer title if present else the inner title (default the empty string),
`description` = the outer and inner descriptions joined by one space, every
other key taken from the inner schema, and no keys invented beyond those.
The spec's concrete example is the witness below. -/
theorem flattener_singleton_allOf_merge
    (k : String) (dv di : List (String × JVal)) (d1 d2 : String)
    (hall : lookupK "allOf" dv = some (.list [.obj di]))
    (hd1 : (lookupK "description" dv).getD (.str "") = .str d1)
    (hd2 : (lookupK "description" di).getD (.str "") = .str d2) :
    ∃ o, replace_all_ofs [(k, .obj dv)] = .ok [(k, .obj o)] ∧
      lookupK "title" o =
        some ((lookupK "title" dv).getD ((lookupK "title" di).getD (.str ""))) ∧
      lookupK "description" o = some (.str (d1 ++ " " ++ d2)) ∧
      (∀ k2, k2 ≠ "title" → k2 ≠ "description" → lookupK k2 o = lookupK k2 di) ∧
      (∀ k2, (lookupK k2 o).isSome →
        (lookupK k2 di).isSome ∨ k2 = "title" ∨ k2 = "description") := by
  refine ⟨setK "description" (.str (d1 ++ " " ++ d2)) (setK "title" (mergedTitle dv di) di),
    ?_, ?_, ?_, ?_, ?_⟩
  · simp [replace_all_ofs, replaceVal, hall, mergeAllOf, joinDescriptions, hd1, hd2]
  · rw [lookupK_setK_ne _ _ _ (by simp), lookupK_setK_self]
    simp [mergedTitle]
  · rw [lookupK_setK_self]
  · intro k2 h1 h2
    rw [lookupK_setK_ne _ _ _ h2, lookupK_setK_ne _ _ _ h1]
  · intro k2 h
    rcases lookupK_setK_isSome _ _ _ _ h with h' | h'
    · exact Or.inr (Or.inr h')
    · rcases lookupK_setK_isSome _ _ _ _ h' with h'' | h''
      · exact Or.inr (Or.inl h'')
      · exact Or.inl h''

/-- C4 witness: the spec's concrete example
`{"x": {"allOf": [{"type": "string", "description": "d2"}], "title": "T",
"description": "d1"}}` flattens to a mapping whose `"x"` value has
`type = "string"`, `title = "T"`, `description = "d1 d2"` and no other keys. -/
theorem flattener_singleton_allOf_merge_witness :
    ∃ o, replace_all_ofs
        [("x", .obj [("allOf", .list [.obj [("type", .str "string"), ("description", .str "d2")]]),
                     ("title", .str "T"), ("description", .str "d1")])] = .ok [("x", .obj o)] ∧
      lookupK "title" o = some (.str "T") ∧
      lookupK "description" o = some (.str "d1 d2") ∧
      lookupK "type" o = some (.str "string") ∧
      (∀ k2, (lookupK k2 o).isSome →
        k2 = "type" ∨ k2 = "description" ∨ k2 = "title") := by
  obtain ⟨o, h1, h2, h3, h4, h5⟩ :=
    flattener_singleton_allOf_merge "x"
      [("allOf", .list [.obj [("type", .str "string"), ("description", .str "d2")]]),
       ("title", .str "T"), ("description", .str "d1")]
      [("type", .str "string"), ("description", .str "d2")]
      "d1" "d2" (by simp [lookupK]) (by simp [lookupK]) (by simp [lookupK])
  refine ⟨o, h1, by simpa [lookupK] using h2, h3, ?_, ?_⟩
  · rw [h4 "type" (by simp) (by simp)]
    simp [lookupK]
  · intro k2 h
    rcases h5 k2 h with h' | h' | h'
    · by_cases ht : ("type" : String) = k2
      · exact Or.inl ht.symm
      · by_cases hd : ("description" : String) = k2
        · exact Or.inr (Or.inl hd.symm)
        · simp [lookupK, ht, hd] at h'
    · exact Or.inr (Or.inr h')
    · exact Or.inr (Or.inl h')

/-- C10: whenever the flattener replaces a singleton `allOf`, the resulting
mapping contains both a `title` and a `description` key; when neither the
outer mapping nor the inner schema had them, `title` becomes the empty string
and `description` becomes a single space (the space-join of two empties). -/
theorem flattener_singleton_always_sets_title_and_description
    (dv di : List (String × JVal)) (d1 d2 : String)
    (hall : lookupK "allOf" dv = some (.list [.obj di]))
    (hd1 : (lookupK "description" dv).getD (.str "") = .str d1)
    (hd2 : (lookupK "description" di).getD (.str "") = .str d2) :
    ∃ o, replaceVal (.obj dv) = .ok (.obj o) ∧
      (lookupK "title" o).isSome ∧ (lookupK "description" o).isSome ∧
      (lookupK "title" dv = none → lookupK "title" di = none →
        lookupK "title" o = some (.str "")) ∧
      (lookupK "description" dv = none → lookupK "description" di = none →
        lookupK "description" o = some (.str " ")) := by
  refine ⟨setK "description" (.str (d1 ++ " " ++ d2)) (setK "title" (mergedTitle dv di) di),
    ?_, ?_, ?_, ?_, ?_⟩
  · simp [replaceVal, hall, mergeAllOf, joinDescriptions, hd1, hd2]
  · rw [lookupK_setK_ne _ _ _ (by simp), lookupK_setK_self]
    simp
  · rw [lookupK_setK_self]
    simp
  · intro h1 h2
    rw [lookupK_setK_ne _ _ _ (by simp), lookupK_setK_self]
    simp [mergedTitle, h1, h2]
  · intro h1 h2
    rw [h1] at hd1
    rw [h2] at hd2
    simp only [Option.getD_none] at hd1 hd2
    rw [lookupK_setK_self]
    cases hd1
    cases hd2
    rfl

/-- C10 witness: replacing `{"allOf": [{"type": "string"}]}` (no titles, no
descriptions anywhere) yields a mapping with `title = ""` and
`description = " "`. -/
theorem flattener_singleton_always_sets_title_and_description_witness :
    ∃ o, replaceVal (.obj [("allOf", .list [.obj [("type", .str "string")]])]) = .ok (.obj o) ∧
      lookupK "title" o = some (.str "") ∧ lookupK "description" o = some (.str " ") := by
  obtain ⟨o, h1, _, _, h4, h5⟩ :=
    flattener_singleton_always_sets_title_and_description
      [("allOf", .list [.obj [("type", .str "string")]])] [("type", .str "string")] "" ""
      (by simp [lookupK]) (by simp [lookupK]) (by simp [lookupK])
  exact ⟨o, h1, h4 (by simp [lookupK]) (by simp [lookupK]),
    h5 (by simp [lookupK]) (by simp [lookupK])⟩

/-- C5 counterexample: the claim quantifies over every schema CONTAINING a
zero-or-multi-element `allOf` mapping value, but the flattener never descends
into the schema that replaces a singleton `allOf`, so a bad `allOf` hidden
there is not met: this input contains the mapping value `{"allOf": []}` yet
flattening succeeds instead of failing. -/
theorem flattener_hidden_bad_allOf_accepted :
    replace_all_ofs
        [("x", .obj [("allOf", .list [.obj [("y", .obj [("allOf", .list [])])]])])] =
      .ok [("x", .obj [("y", .obj [("allOf", .list [])]),
                       ("title", .str ""), ("description", .str " ")])] := rfl

/-- C5 amended: for every mapping value actually met by the flattener's
entry-by-entry traversal (here: at any top-level position whose preceding
entries flatten successfully) whose `allOf` key holds a list of zero or of
more than one elements, the flattener fails with the `ValueError` carrying
that list and produces no result. -/
theorem flattener_met_bad_allOf_value_error
    (pre : List (String × JVal)) (k : String) (dv : List (String × JVal))
    (l : List JVal) (rest out : List (String × JVal))
    (hpre : replace_all_ofs pre = .ok out)
    (hall : lookupK "allOf" dv = some (.list l))
    (hlen : l.length ≠ 1) :
    replace_all_ofs (pre ++ (k, .obj dv) :: rest) = .error (.allOfValueError (.list l)) := by
  induction pre generalizing out with
  | nil =>
    have hm : mergeAllOf dv (.list l) = .error (.allOfValueError (.list l)) := by
      match l with
      | [] => rfl
      | [x] => exact absurd rfl hlen
      | x :: y :: t => rfl
    simp [replace_all_ofs, replaceVal, hall, hm]
  | cons p pre' ih =>
    obtain ⟨k0, v0⟩ := p
    simp only [replace_all_ofs] at hpre
    cases hv : replaceVal v0 with
    | error e => simp [hv] at hpre
    | ok w =>
      cases hr : replace_all_ofs pre' with
      | error e => simp [hv, hr] at hpre
      | ok out' =>
        simp only [List.cons_append, replace_all_ofs, hv, exceptBindOk]
        simp [ih out' hr]

/-- C5 amended witness: flattening `{"x": {"allOf": [A, B]}}` fails with the
`ValueError` carrying `[A, B]`. -/
theorem flattener_met_bad_allOf_value_error_witness :
    replace_all_ofs
        [("x", .obj [("allOf", .list [.obj [("type", .str "string")], .obj [("type", .str "integer")]])])] =
      .error (.allOfValueError (.list [.obj [("type", .str "string")], .obj [("type", .str "integer")]])) :=
  flattener_met_bad_allOf_value_error [] "x"
    [("allOf", .list [.obj [("type", .str "string")], .obj [("type", .str "integer")]])]
    [.obj [("type", .str "string")], .obj [("type", .str "integer")]] [] []
    rfl (by simp [lookupK]) (by simp)

/-- C7: on a non-empty generation list whose first element is a chat
generation carrying no `function_call` entry in its side channel,
`parse_result` fails with the `OutputParserException` embedding the full
message, and returns no value. -/
theorem parse_result_missing_function_call
    (jl : String → Option JVal) (sel : PydanticSchema) (msg : Message)
    (rest : List Generation)
    (h : lookupK "function_call" msg.additional_kwargs = none) :
    parse_result jl sel (.chat msg :: rest) = .error (.outputParserException msg) := by
  simp [parse_result, h, truthy]

/-- C7 witness: a concrete chat generation with an empty side channel. -/
theorem parse_result_missing_function_call_witness :
    parse_result (fun _ => none) (.mapping []) [.chat ⟨"hello", []⟩] =
      .error (.outputParserException ⟨"hello", []⟩) :=
  parse_result_missing_function_call (fun _ => none) (.mapping []) ⟨"hello", []⟩ []
    (by simp [lookupK])

/-- C9: `parse_result` gates on Python truthiness of the `function_call`
entry, so an explicitly present but EMPTY `function_call` mapping is treated
exactly like an absent one: the same `OutputParserException` is raised and no
name lookup or argument decoding is attempted. -/
theorem parse_result_empty_function_call
    (jl : String → Option JVal) (sel : PydanticSchema) (msg : Message)
    (rest : List Generation)
    (h : lookupK "function_call" msg.additional_kwargs = some (.obj [])) :
    parse_result jl sel (.chat msg :: rest) = .error (.outputParserException msg) := by
  simp [parse_result, h, truthy]

/-- C9 witness: a concrete chat generation whose side channel holds
`function_call = {}`. -/
theorem parse_result_empty_function_call_witness :
    parse_result (fun _ => none) (.mapping [])
        [.chat ⟨"hi", [("function_call", .obj [])]⟩] =
      .error (.outputParserException ⟨"hi", [("function_call", .obj [])]⟩) :=
  parse_result_empty_function_call (fun _ => none) (.mapping [])
    ⟨"hi", [("function_call", .obj [])]⟩ [] (by simp [lookupK])

/-- C8: in the callable-tool builder the description falls back from an empty
tool description to `schema["description"]` with no default, so a tool whose
argument schema lacks a `description` key fails with a `KeyError`; the
typed-class builder instead defaults a missing description to the empty
string. -/
theorem tool_builder_missing_description_keyerror
    (tool : BaseTool) (s : List (String × JVal)) (pm : PModel) (t : JVal)
    (ps : List (String × JVal))
    (hs : tool.args_schema = some s)
    (hname : tool.name ≠ "")
    (hdesc : tool.description = "")
    (hnodesc : lookupK "description" s = none)
    (htitle : lookupK "title" pm.schema = some t)
    (hnodesc2 : lookupK "description" pm.schema = none)
    (hps : get_parameters_from_schema pm.schema = .ok ps) :
    format_tool_to_vertex_function tool = .error (.keyError "description") ∧
    format_pydantic_to_vertex_function pm = .ok ⟨t, .str "", ps⟩ := by
  constructor
  · simp [format_tool_to_vertex_function, hs, hname, hdesc, hnodesc]
  · simp [format_pydantic_to_vertex_function, htitle, hnodesc2, hps]

/-- C8 witness: a concrete tool with a non-empty name, empty description and
a description-free argument schema, against a typed class with a
description-free schema. -/
theorem tool_builder_missing_description_keyerror_witness :
    format_tool_to_vertex_function
        ⟨"mytool", "", some [("title", .str "T"), ("type", .str "object")]⟩ =
      .error (.keyError "description") ∧
    format_pydantic_to_vertex_function
        ⟨[("title", .str "M"), ("type", .str "object")], fun flds => some flds⟩ =
      .ok ⟨.str "M", .str "", [("type", .str "object")]⟩ :=
  tool_builder_missing_description_keyerror
    ⟨"mytool", "", some [("title", .str "T"), ("type", .str "object")]⟩
    [("title", .str "T"), ("type", .str "object")]
    ⟨[("title", .str "M"), ("type", .str "object")], fun flds => some flds⟩
    (.str "M") [("type", .str "object")]
    rfl (by simp) rfl (by simp [lookupK]) (by simp [lookupK]) (by simp [lookupK])
    (by
      have h : filterParams [("title", .str "M"), ("type", .str "object")] =
          .ok [("type", .str "object")] := by
        rw [filterParams.eq_def]
        simp [lookupK, List.filter, pure, Except.pure, extrasPred]
      simp [get_parameters_from_schema, dereference_refs, replace_all_ofs, replaceVal, h])

/-- C3: round-trip.  Building the function description of a structured type
uses the schema title as the declared name; parsing a chat generation whose
`function_call` payload carries that very name and a valid JSON encoding of an
instance's fields looks the type up under that name, decodes the arguments and
reconstructs the instance the encoding came from (`validate` returning the
original instance on its own encoded fields is the external
pydantic/JSON guarantee). -/
theorem pydantic_function_round_trip
    (pm : PModel) (nm : String) (m : List (String × PModel))
    (jl : String → Option JVal) (args content : String)
    (flds inst ps : List (String × JVal)) (rest : List Generation)
    (htitle : lookupK "title" pm.schema = some (.str nm))
    (hps : get_parameters_from_schema pm.schema = .ok ps)
    (hm : lookupPM nm m = some pm)
    (hjson : jl args = some (.obj flds))
    (hvalid : pm.validate flds = some inst) :
    (∃ fd, format_pydantic_to_vertex_function pm = .ok fd ∧ fd.name = .str nm) ∧
    parse_result jl (.mapping m)
      (.chat ⟨content,
        [("function_call", .obj [("name", .str nm), ("arguments", .str args)])]⟩ :: rest) =
      .ok inst := by
  constructor
  · refine ⟨⟨.str nm, (lookupK "description" pm.schema).getD (.str ""), ps⟩, ?_, rfl⟩
    simp [format_pydantic_to_vertex_function, htitle, hps]
  · simp [parse_result, lookupK, truthy, hm, hjson, hvalid]

/-- C3 witness: a concrete structured type titled `Cookie`, a payload naming
`Cookie` with arguments decoding to its field mapping, and an identity
validator. -/
theorem pydantic_function_round_trip_witness :
    (∃ fd, format_pydantic_to_vertex_function
        ⟨[("title", .str "Cookie")], fun flds => some flds⟩ = .ok fd ∧
        fd.name = .str "Cookie") ∧
    parse_result
        (fun s => if s = "ARGS" then some (.obj [("name", .str "value"), ("age", .num 10)]) else none)
        (.mapping [("Cookie", ⟨[("title", .str "Cookie")], fun flds => some flds⟩)])
        [.chat ⟨"", [("function_call", .obj [("name", .str "Cookie"), ("arguments", .str "ARGS")])]⟩] =
      .ok [("name", .str "value"), ("age", .num 10)] :=
  pydantic_function_round_trip
    ⟨[("title", .str "Cookie")], fun flds => some flds⟩ "Cookie"
    [("Cookie", ⟨[("title", .str "Cookie")], fun flds => some flds⟩)]
    (fun s => if s = "ARGS" then some (.obj [("name", .str "value"), ("age", .num 10)]) else none)
    "ARGS" "" [("name", .str "value"), ("age", .num 10)]
    [("name", .str "value"), ("age", .num 10)] [] []
    (by simp [lookupK])
    (by
      have h : filterParams [("title", .str "Cookie")] = .ok [] := by
        rw [filterParams.eq_def]
        simp [lookupK, List.filter, pure, Except.pure, extrasPred]
      simp [get_parameters_from_schema, dereference_refs, replace_all_ofs, replaceVal, h])
    (by simp [lookupPM]) (by simp) rfl

theorem noAllOfD_lookup_allOf : ∀ d : List (String × JVal),
    noAllOfD d = true → lookupK "allOf" d = none := by
  intro d
  induction d with
  | nil => intro _; rfl
  | cons p rest ih =>
    obtain ⟨k, v⟩ := p
    intro h
    simp [noAllOfD] at h
    obtain ⟨⟨h1, _⟩, h3⟩ := h
    simp [lookupK, h1, ih h3]

theorem flattenId_main : ∀ n : Nat,
    (∀ d : List (String × JVal), sizeOf d ≤ n → shapedD d = true → noAllOfD d = true →
      replace_all_ofs d = .ok d) ∧
    (∀ v : JVal, sizeOf v ≤ n → shapedV v = true → noAllOfV v = true →
      replaceVal v = .ok v) ∧
    (∀ xs : List JVal, sizeOf xs ≤ n → shapedL xs = true → noAllOfL xs = true →
      replaceList xs = .ok xs) := by
  intro n
  induction n with
  | zero =>
    refine ⟨?_, ?_, ?_⟩
    · intro d hs _ _
      exfalso
      cases d <;> simp at hs
    · intro v hs _ _
      exfalso
      cases v <;> simp at hs
    · intro xs hs _ _
      exfalso
      cases xs <;> simp at hs
  | succ n ih =>
    obtain ⟨ihD, ihV, ihL⟩ := ih
    refine ⟨?_, ?_, ?_⟩
    · intro d hs hsh hna
      match d, hs, hsh, hna with
      | [], _, _, _ => rfl
      | (k, v) :: rest, hs, hsh, hna =>
        simp [shapedD] at hsh
        simp [noAllOfD] at hna
        obtain ⟨⟨_, hna1⟩, hna2⟩ := hna
        have hv := ihV v (by simp at hs; omega) hsh.1 hna1
        have hr := ihD rest (by simp at hs; omega) hsh.2 hna2
        simp [replace_all_ofs, hv, hr]
    · intro v hs hsh hna
      match v, hs, hsh, hna with
      | .null, _, _, _ => rfl
      | .bool _, _, _, _ => rfl
      | .num _, _, _, _ => rfl
      | .str _, _, _, _ => rfl
      | .obj d, hs, hsh, hna =>
        have hl := noAllOfD_lookup_allOf d (by simpa [noAllOfV] using hna)
        have hd := ihD d (by simp at hs; omega) (by simpa [shapedV] using hsh)
          (by simpa [noAllOfV] using hna)
        simp [replaceVal, hl, hd]
      | .list [], _, _, _ => rfl
      | .list (.null :: t), _, _, _ => rfl
      | .list (.bool _ :: t), _, _, _ => rfl
      | .list (.num _ :: t), _, _, _ => rfl
      | .list (.str _ :: t), _, _, _ => rfl
      | .list (.list l :: t), _, _, _ => rfl
      | .list (.obj d :: t), hs, hsh, hna =>
        simp [shapedV] at hsh
        simp [noAllOfV, noAllOfL] at hna
        have hd := ihD d (by simp at hs; omega) hsh.1 (by simpa [noAllOfV] using hna.1)
        have ht := ihL t (by simp at hs; omega) hsh.2 hna.2
        simp [replaceVal, replaceList, hd, ht]
    · intro xs hs hsh hna
      match xs, hs, hsh, hna with
      | [], _, _, _ => rfl
      | .obj d :: t, hs, hsh, hna =>
        simp [shapedL] at hsh
        simp [noAllOfL, noAllOfV] at hna
        have hd := ihD d (by simp at hs; omega) hsh.1 hna.1
        have ht := ihL t (by simp at hs; omega) hsh.2 hna.2
        simp [replaceList, hd, ht]
      | .null :: t, _, hsh, _ => simp [shapedL] at hsh
      | .bool _ :: t, _, hsh, _ => simp [shapedL] at hsh
      | .num _ :: t, _, hsh, _ => simp [shapedL] at hsh
      | .str _ :: t, _, hsh, _ => simp [shapedL] at hsh
      | .list _ :: t, _, hsh, _ => simp [shapedL] at hsh

/-- C6: on every schema in the spec's data model (values are scalars, nested
schemas, or sequences of schemas) containing no `allOf` key at any level, the
flattener returns its input unchanged. -/
theorem flattener_identity_on_allOf_free
    (d : List (String × JVal)) (hsh : shapedD d = true) (hna : noAllOfD d = true) :
    replace_all_ofs d = .ok d :=
  (flattenId_main (sizeOf d)).1 d (Nat.le_refl _) hsh hna

/-- C6 witness: a concrete `allOf`-free schema with nested mappings, a
sequence of schemas and a sequence of scalars flattens to itself. -/
theorem flattener_identity_on_allOf_free_witness :
    replace_all_ofs
        [("type", .str "object"),
         ("properties", .obj [("a", .obj [("type", .str "string")])]),
         ("anyOf", .list [.obj [("type", .str "integer")], .obj [("type", .str "string")]]),
         ("required", .list [.str "a"])] =
      .ok [("type", .str "object"),
           ("properties", .obj [("a", .obj [("type", .str "string")])]),
           ("anyOf", .list [.obj [("type", .str "integer")], .obj [("type", .str "string")]]),
           ("required", .list [.str "a"])] :=
  flattener_identity_on_allOf_free _ rfl rfl

theorem strOkOpt_getD (o : Option JVal) (h : strOkOpt o = true) :
    ∃ s, o.getD (JVal.str "") = .str s := by
  cases o with
  | none => exact ⟨"", rfl⟩
  | some v =>
    cases v with
    | str s => exact ⟨s, rfl⟩
    | null => simp [strOkOpt] at h
    | bool b => simp [strOkOpt] at h
    | num n => simp [strOkOpt] at h
    | list l => simp [strOkOpt] at h
    | obj d => simp [strOkOpt] at h

theorem noAllOfD_setK (k : String) (v : JVal) (hk : k ≠ "allOf") (hv : noAllOfV v = true) :
    ∀ d, noAllOfD d = true → noAllOfD (setK k v d) = true := by
  intro d
  induction d with
  | nil =>
    intro _
    simp [setK, noAllOfD, hk, hv]
  | cons p rest ih =>
    obtain ⟨k', v'⟩ := p
    intro h
    simp [noAllOfD] at h
    obtain ⟨⟨h1, h2⟩, h3⟩ := h
    by_cases hkk : k' = k
    · simp [setK, hkk, noAllOfD, hk, hv, h3]
    · simp [setK, hkk, noAllOfD, h1, h2, ih h3]

theorem mergeAllOf_flatPre (dv di : List (String × JVal))
    (h1 : strOkOpt (lookupK "description" dv) = true)
    (h2 : strOkOpt (lookupK "description" di) = true)
    (h3 : noAllOfD di = true)
    (h4 : noAllOfV (mergedTitle dv di) = true) :
    ∃ o, mergeAllOf dv (.list [.obj di]) = .ok (.obj o) ∧ noAllOfD o = true := by
  obtain ⟨d1, e1⟩ := strOkOpt_getD _ h1
  obtain ⟨d2, e2⟩ := strOkOpt_getD _ h2
  refine ⟨setK "description" (.str (d1 ++ " " ++ d2)) (setK "title" (mergedTitle dv di) di),
    ?_, ?_⟩
  · simp [mergeAllOf, joinDescriptions, e1, e2]
  · exact noAllOfD_setK "description" (.str (d1 ++ " " ++ d2)) (by simp) rfl _
      (noAllOfD_setK "title" (mergedTitle dv di) (by simp) h4 _ h3)

theorem flattenNoAllOf_main : ∀ n : Nat,
    (∀ d : List (String × JVal), sizeOf d ≤ n → flatPreD d = true →
      ∃ out, replace_all_ofs d = .ok out ∧ noAllOfD out = true) ∧
    (∀ v : JVal, sizeOf v ≤ n → flatPreV v = true →
      ∃ w, replaceVal v = .ok w ∧ noAllOfV w = true) ∧
    (∀ xs : List JVal, sizeOf xs ≤ n → flatPreL xs = true →
      ∃ ys, replaceList xs = .ok ys ∧ noAllOfL ys = true) := by
  intro n
  induction n with
  | zero =>
    refine ⟨?_, ?_, ?_⟩
    · intro d hs _
      exfalso
      cases d <;> simp at hs
    · intro v hs _
      exfalso
      cases v <;> simp at hs
    · intro xs hs _
      exfalso
      cases xs <;> simp at hs
  | succ n ih =>
    obtain ⟨ihD, ihV, ihL⟩ := ih
    refine ⟨?_, ?_, ?_⟩
    · intro d hs hp
      match d, hs, hp with
      | [], _, _ => exact ⟨[], rfl, rfl⟩
      | (k, v) :: rest, hs, hp =>
        simp [flatPreD] at hp
        obtain ⟨⟨hk, hpv⟩, hpr⟩ := hp
        obtain ⟨w, hw, hnw⟩ := ihV v (by simp at hs; omega) hpv
        obtain ⟨out', hr, hno⟩ := ihD rest (by simp at hs; omega) hpr
        refine ⟨(k, w) :: out', ?_, ?_⟩
        · simp [replace_all_ofs, hw, hr]
        · simp [noAllOfD, hk, hnw, hno]
    · intro v hs hp
      match v, hs, hp with
      | .null, _, hp => exact ⟨.null, rfl, hp⟩
      | .bool b, _, hp => exact ⟨.bool b, rfl, hp⟩
      | .num m, _, hp => exact ⟨.num m, rfl, hp⟩
      | .str s, _, hp => exact ⟨.str s, rfl, hp⟩
      | .obj dv, hs, hp =>
        cases hl : lookupK "allOf" dv with
        | some a =>
          rw [flatPreV, hl] at hp
          match a, hp with
          | .list [.obj di], hp =>
            simp at hp
            obtain ⟨⟨⟨h1, h2⟩, h3⟩, h4⟩ := hp
            obtain ⟨o, ho, hno⟩ := mergeAllOf_flatPre dv di h1 h2 h3 h4
            exact ⟨.obj o, by simp [replaceVal, hl, ho], hno⟩
        | none =>
          rw [flatPreV, hl] at hp
          obtain ⟨out, ho, hno⟩ := ihD dv (by simp at hs; omega) hp
          exact ⟨.obj out, by simp [replaceVal, hl, ho], hno⟩
      | .list [], _, hp => exact ⟨.list [], rfl, rfl⟩
      | .list (.null :: t), _, hp => exact ⟨.list (.null :: t), rfl, hp⟩
      | .list (.bool b :: t), _, hp => exact ⟨.list (.bool b :: t), rfl, hp⟩
      | .list (.num m :: t), _, hp => exact ⟨.list (.num m :: t), rfl, hp⟩
      | .list (.str s :: t), _, hp => exact ⟨.list (.str s :: t), rfl, hp⟩
      | .list (.list l :: t), _, hp => exact ⟨.list (.list l :: t), rfl, hp⟩
      | .list (.obj d0 :: t), hs, hp =>
        rw [flatPreV] at hp
        obtain ⟨ys, hys, hnys⟩ := ihL (.obj d0 :: t) (by simp at hs ⊢; omega) hp
        exact ⟨.list ys, by simp [replaceVal, hys], by simpa [noAllOfV] using hnys⟩
    · intro xs hs hp
      match xs, hs, hp with
      | [], _, _ => exact ⟨[], rfl, rfl⟩
      | .obj d0 :: t, hs, hp =>
        simp [flatPreL] at hp
        obtain ⟨hp1, hp2⟩ := hp
        obtain ⟨o, ho, hno⟩ := ihD d0 (by simp at hs; omega) hp1
        obtain ⟨ys, hys, hnys⟩ := ihL t (by simp at hs; omega) hp2
        refine ⟨.obj o :: ys, ?_, ?_⟩
        · simp [replaceList, ho, hys]
        · simp [noAllOfL, noAllOfV, hno, hnys]
      | .null :: t, _, hp => simp [flatPreL] at hp
      | .bool _ :: t, _, hp => simp [flatPreL] at hp
      | .num _ :: t, _, hp => simp [flatPreL] at hp
      | .str _ :: t, _, hp => simp [flatPreL] at hp
      | .list _ :: t, _, hp => simp [flatPreL] at hp

/-- C1 counterexample: the claim is false as stated.  This input is accepted
(the only `allOf` the flattener meets is the singleton at `"x"`), yet the
output still contains an `allOf` key, because the flattener does not recurse
into the schema that replaces a singleton `allOf`. -/
theorem flattener_nested_allOf_survives :
    replace_all_ofs
        [("x", .obj [("allOf",
          .list [.obj [("y", .obj [("allOf", .list [.obj [("type", .str "string")]])])]])])] =
      .ok [("x", .obj [("y", .obj [("allOf", .list [.obj [("type", .str "string")]])]),
                       ("title", .str ""), ("description", .str " ")])] ∧
    noAllOfD [("x", .obj [("y", .obj [("allOf", .list [.obj [("type", .str "string")]])]),
                          ("title", .str ""), ("description", .str " ")])] = false :=
  ⟨rfl, rfl⟩

/-- C1 amended: the flattener resolves exactly the `allOf` combinators its
entry-by-entry traversal meets; its output is `allOf`-free provided no
traversed dictionary (the top level included) has a key named `allOf`, and
every singleton `allOf` it meets replaces the value with an inner schema (and
merged title) that is already `allOf`-free — combinators nested inside the
replacing schema or keyed at the top level are NOT resolved. -/
theorem flattener_output_allOf_free
    (d : List (String × JVal)) (h : flatPreD d = true) :
    ∃ out, replace_all_ofs d = .ok out ∧ noAllOfD out = true :=
  (flattenNoAllOf_main (sizeOf d)).1 d (Nat.le_refl _) h

/-- C1 amended witness: a schema with one singleton `allOf` (whose inner
schema is `allOf`-free) and one nested plain mapping flattens successfully to
an `allOf`-free schema. -/
theorem flattener_output_allOf_free_witness :
    ∃ out, replace_all_ofs
        [("x", .obj [("allOf", .list [.obj [("type", .str "string")]])]),
         ("y", .obj [("type", .str "integer")])] = .ok out ∧
      noAllOfD out = true :=
  flattener_output_allOf_free
    [("x", .obj [("allOf", .list [.obj [("type", .str "string")]])]),
     ("y", .obj [("type", .str "integer")])] rfl

theorem lookupK_append_some (k : String) (v : JVal) :
    ∀ (a b : List (String × JVal)), lookupK k a = some v → lookupK k (a ++ b) = some v := by
  intro a b
  induction a with
  | nil => intro h; simp [lookupK] at h
  | cons p rest ih =>
    obtain ⟨k', v'⟩ := p
    intro h
    by_cases hk : k' = k
    · simp [lookupK, hk] at h ⊢
      exact h
    · simp [lookupK, hk] at h ⊢
      exact ih h

theorem lookupK_append_none (k : String) :
    ∀ (a b : List (String × JVal)), lookupK k a = none → lookupK k (a ++ b) = lookupK k b := by
  intro a b
  induction a with
  | nil => intro _; rfl
  | cons p rest ih =>
    obtain ⟨k', v'⟩ := p
    intro h
    by_cases hk : k' = k
    · simp [lookupK, hk] at h
    · simp [lookupK, hk] at h ⊢
      exact ih h

theorem lookupK_filter_keyTrue (p : String × JVal → Bool) (k : String)
    (hp : ∀ v, p (k, v) = true) :
    ∀ d : List (String × JVal), lookupK k (d.filter p) = lookupK k d := by
  intro d
  induction d with
  | nil => rfl
  | cons q rest ih =>
    obtain ⟨k', v'⟩ := q
    by_cases hk : k' = k
    · subst hk
      simp [List.filter, hp v', lookupK, ih]
    · cases hq : p (k', v') with
      | true => simp [List.filter, hq, lookupK, hk, ih]
      | false => simp [List.filter, hq, lookupK, hk, ih]

theorem lookupK_filter_keyFalse (p : String × JVal → Bool) (k : String)
    (hp : ∀ v, p (k, v) = false) :
    ∀ d : List (String × JVal), lookupK k (d.filter p) = none := by
  intro d
  induction d with
  | nil => rfl
  | cons q rest ih =>
    obtain ⟨k', v'⟩ := q
    by_cases hk : k' = k
    · subst hk
      simp [List.filter, hp v', ih]
    · cases hq : p (k', v') with
      | true => simp [List.filter, hq, lookupK, hk, ih]
      | false => simp [List.filter, hq, ih]

theorem filterProps_spec : ∀ (dp op : List (String × JVal)), filterProps dp = .ok op →
    (∀ n2 dv, lookupK n2 dp = some (.obj dv) →
      ∃ ov, lookupK n2 op = some (.obj ov) ∧ filterParams dv = .ok ov) ∧
    (∀ n2, (lookupK n2 op).isSome → (lookupK n2 dp).isSome) := by
  intro dp
  induction dp with
  | nil =>
    intro op h
    simp only [filterProps] at h
    cases h
    constructor
    · intro n2 dv h2
      simp [lookupK] at h2
    · intro n2 h2
      simpa [lookupK] using h2
  | cons q rest ih =>
    intro op h
    obtain ⟨nm, v⟩ := q
    cases v with
    | obj dv =>
      simp only [filterProps] at h
      cases hfp : filterParams dv with
      | error e =>
        rw [hfp] at h
        simp at h
      | ok o =>
        rw [hfp] at h
        cases hfr : filterProps rest with
        | error e =>
          rw [hfr] at h
          simp at h
        | ok rest' =>
          rw [hfr] at h
          simp at h
          subst h
          obtain ⟨ih1, ih2⟩ := ih rest' hfr
          constructor
          · intro n2 dv2 h2
            by_cases hn : nm = n2
            · simp [lookupK, hn] at h2 ⊢
              subst h2
              exact hfp
            · simp [lookupK, hn] at h2 ⊢
              exact ih1 n2 dv2 h2
          · intro n2 h2
            by_cases hn : nm = n2
            · simp [lookupK, hn]
            · simp [lookupK, hn] at h2 ⊢
              exact ih2 n2 h2
    | null => simp [filterProps] at h
    | bool b => simp [filterProps] at h
    | num n => simp [filterProps] at h
    | str s => simp [filterProps] at h
    | list l => simp [filterProps] at h

/-- Functorial map of an `Except` success, for rewriting `do` blocks. -/
@[simp] theorem exceptMapOk {e a b : Type} (x : a) (f : a → b) :
    (f <$> (Except.ok x : Except e a)) = Except.ok (f x) := rfl

theorem filterParams_shape (d out : List (String × JVal))
    (h : filterParams d = .ok out) :
    ∃ itemsOut propsOut,
      out = itemsOut ++ propsOut ++ d.filter extrasPred ∧
      (match lookupK "items" d with
       | none => itemsOut = []
       | some .null => itemsOut = [("items", JVal.null)]
       | some (.obj di) => ∃ oi, filterParams di = .ok oi ∧ itemsOut = [("items", .obj oi)]
       | some _ => False) ∧
      (match lookupK "properties" d with
       | none => propsOut = []
       | some .null => propsOut = [("properties", JVal.null)]
       | some (.obj dp) => ∃ op, filterProps dp = .ok op ∧ propsOut = [("properties", .obj op)]
       | some _ => False) := by
  rw [filterParams.eq_def] at h
  split at h
  · rename_i heqI
    split at h
    · rename_i heqP
      split at h
      · simp at h
      · simp at h
      · simp at h
        subst h
        exact ⟨[], [], by simp, by rw [heqI], by rw [heqP]⟩
    · rename_i heqP
      split at h
      · simp at h
      · simp at h
      · simp at h
        subst h
        exact ⟨[], [("properties", JVal.null)], by simp, by rw [heqI], by rw [heqP]⟩
    · rename_i dp heqP
      cases hdp : filterProps dp with
      | error e =>
        rw [hdp] at h
        split at h <;> simp at h
      | ok op =>
        rw [hdp] at h
        simp only [exceptMapOk, exceptBindOk] at h
        split at h
        · simp at h
        · simp at h
        · simp at h
          subst h
          exact ⟨[], [("properties", JVal.obj op)], by simp, by rw [heqI],
            by rw [heqP]; exact ⟨op, hdp, rfl⟩⟩
    · split at h <;> simp at h
  · rename_i heqI
    split at h
    · rename_i heqP
      split at h
      · simp at h
      · simp at h
      · simp at h
        subst h
        exact ⟨[("items", JVal.null)], [], by simp, by rw [heqI], by rw [heqP]⟩
    · rename_i heqP
      split at h
      · simp at h
      · simp at h
      · simp at h
        subst h
        exact ⟨[("items", JVal.null)], [("properties", JVal.null)], by simp,
          by rw [heqI], by rw [heqP]⟩
    · rename_i dp heqP
      cases hdp : filterProps dp with
      | error e =>
        rw [hdp] at h
        split at h <;> simp at h
      | ok op =>
        rw [hdp] at h
        simp only [exceptMapOk, exceptBindOk] at h
        split at h
        · simp at h
        · simp at h
        · simp at h
          subst h
          exact ⟨[("items", JVal.null)], [("properties", JVal.obj op)], by simp,
            by rw [heqI], by rw [heqP]; exact ⟨op, hdp, rfl⟩⟩
    · split at h <;> simp at h
  · rename_i di heqI
    cases hdi : filterParams di with
    | error e =>
      rw [hdi] at h
      split at h
      all_goals (split at h <;> simp at h)
    | ok oi =>
      rw [hdi] at h
      simp only [exceptMapOk, exceptBindOk] at h
      split at h
      · simp at h
      · simp at h
      · split at h
        · rename_i heqP
          simp at h
          subst h
          exact ⟨[("items", JVal.obj oi)], [], by simp,
            by rw [heqI]; exact ⟨oi, hdi, rfl⟩, by rw [heqP]⟩
        · rename_i heqP
          simp at h
          subst h
          exact ⟨[("items", JVal.obj oi)], [("properties", JVal.null)], by simp,
            by rw [heqI]; exact ⟨oi, hdi, rfl⟩, by rw [heqP]⟩
        · rename_i dp heqP
          cases hdp : filterProps dp with
          | error e =>
            rw [hdp] at h
            simp at h
          | ok op =>
            rw [hdp] at h
            simp at h
            subst h
            exact ⟨[("items", JVal.obj oi)], [("properties", JVal.obj op)], by simp,
              by rw [heqI]; exact ⟨oi, hdi, rfl⟩, by rw [heqP]; exact ⟨op, hdp, rfl⟩⟩
        · simp at h
  · split at h
    all_goals (first | (split at h <;> simp at h) | simp at h)

/-- C2: for every flattened schema the parameter filter accepts, the output
has `title` and `definitions` removed at the top level, preserves every other
key's value verbatim (`items`/`properties` excepted, whose mapping values are
filtered by the very same function — so this statement, holding for all
inputs, applies recursively at every nested `items`/`properties` level), and
invents no key absent from the input; `properties` is filtered pointwise. -/
theorem parameters_filter_spec (d out : List (String × JVal))
    (h : filterParams d = .ok out) :
    lookupK "title" out = none ∧
    lookupK "definitions" out = none ∧
    (∀ k, k ≠ "title" → k ≠ "definitions" → k ≠ "items" → k ≠ "properties" →
      lookupK k out = lookupK k d) ∧
    (∀ k, (lookupK k out).isSome → (lookupK k d).isSome) ∧
    (∀ di, lookupK "items" d = some (.obj di) →
      ∃ oi, lookupK "items" out = some (.obj oi) ∧ filterParams di = .ok oi) ∧
    (∀ dp, lookupK "properties" d = some (.obj dp) →
      ∃ op, lookupK "properties" out = some (.obj op) ∧
        (∀ nm dv, lookupK nm dp = some (.obj dv) →
          ∃ ov, lookupK nm op = some (.obj ov) ∧ filterParams dv = .ok ov) ∧
        (∀ nm, (lookupK nm op).isSome → (lookupK nm dp).isSome)) := by
  obtain ⟨itemsOut, propsOut, hout, hI, hP⟩ := filterParams_shape d out h
  subst hout
  have hIn : ∀ k, k ≠ "items" → lookupK k itemsOut = none := by
    intro k hk
    cases hi : lookupK "items" d with
    | none =>
      rw [hi] at hI
      subst hI
      rfl
    | some v =>
      rw [hi] at hI
      cases v with
      | null =>
        subst hI
        simp [lookupK, Ne.symm hk]
      | obj di =>
        obtain ⟨oi, _, hio⟩ := hI
        subst hio
        simp [lookupK, Ne.symm hk]
      | bool b => exact hI.elim
      | num n => exact hI.elim
      | str s => exact hI.elim
      | list l => exact hI.elim
  have hPn : ∀ k, k ≠ "properties" → lookupK k propsOut = none := by
    intro k hk
    cases hp2 : lookupK "properties" d with
    | none =>
      rw [hp2] at hP
      subst hP
      rfl
    | some v =>
      rw [hp2] at hP
      cases v with
      | null =>
        subst hP
        simp [lookupK, Ne.symm hk]
      | obj dp =>
        obtain ⟨op, _, hpo⟩ := hP
        subst hpo
        simp [lookupK, Ne.symm hk]
      | bool b => exact hP.elim
      | num n => exact hP.elim
      | str s => exact hP.elim
      | list l => exact hP.elim
  have hTitle : lookupK "title" (itemsOut ++ propsOut ++ d.filter extrasPred) = none := by
    rw [List.append_assoc]
    rw [lookupK_append_none _ _ _ (hIn "title" (by simp)),
        lookupK_append_none _ _ _ (hPn "title" (by simp))]
    exact lookupK_filter_keyFalse extrasPred "title" (fun v => by simp [extrasPred]) d
  have hDefs : lookupK "definitions" (itemsOut ++ propsOut ++ d.filter extrasPred) = none := by
    rw [List.append_assoc]
    rw [lookupK_append_none _ _ _ (hIn "definitions" (by simp)),
        lookupK_append_none _ _ _ (hPn "definitions" (by simp))]
    exact lookupK_filter_keyFalse extrasPred "definitions" (fun v => by simp [extrasPred]) d
  have hOther : ∀ k, k ≠ "title" → k ≠ "definitions" → k ≠ "items" → k ≠ "properties" →
      lookupK k (itemsOut ++ propsOut ++ d.filter extrasPred) = lookupK k d := by
    intro k h1 h2 h3 h4
    rw [List.append_assoc, lookupK_append_none _ _ _ (hIn k h3),
      lookupK_append_none _ _ _ (hPn k h4)]
    exact lookupK_filter_keyTrue extrasPred k (fun v => by simp [extrasPred, h1, h2, h3, h4]) d
  refine ⟨hTitle, hDefs, hOther, ?_, ?_, ?_⟩
  · intro k hks
    by_cases h1 : k = "title"
    · rw [h1, hTitle] at hks
      simp at hks
    · by_cases h2 : k = "definitions"
      · rw [h2, hDefs] at hks
        simp at hks
      · by_cases h3 : k = "items"
        · subst h3
          cases hi : lookupK "items" d with
          | none =>
            rw [hi] at hI
            subst hI
            rw [List.nil_append, lookupK_append_none _ _ _ (hPn "items" (by simp)),
              lookupK_filter_keyFalse extrasPred "items" (fun v => by simp [extrasPred]) d] at hks
            
            simp at hks
          | some v => simp
        · by_cases h4 : k = "properties"
          · subst h4
            cases hp2 : lookupK "properties" d with
            | none =>
              rw [hp2] at hP
              subst hP
              rw [List.append_nil, lookupK_append_none _ _ _ (hIn "properties" (by simp)),
                lookupK_filter_keyFalse extrasPred "properties" (fun v => by simp [extrasPred]) d] at hks
              simp at hks
            | some v => simp
          · rw [hOther k h1 h2 h3 h4] at hks
            exact hks
  · intro di hi
    rw [hi] at hI
    obtain ⟨oi, hoi, hio⟩ := hI
    subst hio
    refine ⟨oi, ?_, hoi⟩
    rw [List.append_assoc]
    exact lookupK_append_some _ _ _ _ (by simp [lookupK])
  · intro dp hp2
    rw [hp2] at hP
    obtain ⟨op, hop, hpo⟩ := hP
    subst hpo
    refine ⟨op, ?_, (filterProps_spec dp op hop).1, (filterProps_spec dp op hop).2⟩
    rw [List.append_assoc, lookupK_append_none _ _ _ (hIn "properties" (by simp))]
    exact lookupK_append_some _ _ _ _ (by simp [lookupK])

/-- C2 witness: filtering `{"title": "T", "type": "object", "items":
{"definitions": null, "type": "string"}}` removes `title` at the top and
`definitions` inside `items`, and preserves `type` at both levels. -/
theorem parameters_filter_spec_witness :
    lookupK "title"
      [("items", JVal.obj [("type", JVal.str "string")]), ("type", JVal.str "object")] = none ∧
    lookupK "type"
        [("items", JVal.obj [("type", JVal.str "string")]), ("type", JVal.str "object")] =
      lookupK "type"
        [("title", JVal.str "T"), ("type", JVal.str "object"),
         ("items", JVal.obj [("definitions", JVal.null), ("type", JVal.str "string")])] := by
  have h1 : filterParams [("definitions", JVal.null), ("type", JVal.str "string")] =
      .ok [("type", JVal.str "string")] := by
    rw [filterParams.eq_def]
    simp [lookupK, List.filter, pure, Except.pure, extrasPred]
  have h : filterParams
      [("title", JVal.str "T"), ("type", JVal.str "object"),
       ("items", JVal.obj [("definitions", JVal.null), ("type", JVal.str "string")])] =
      .ok [("items", JVal.obj [("type", JVal.str "string")]), ("type", JVal.str "object")] := by
    rw [filterParams.eq_def]
    simp [lookupK, List.filter, pure, Except.pure, extrasPred, h1]
  have hs := parameters_filter_spec _ _ h
  exact ⟨hs.1, hs.2.2.1 "type" (by simp) (by simp) (by simp) (by simp)⟩
